import Mathlib

/-!
kt::kthread — a std::thread wrapper that joins on destruction / move

Shallow embedding of `src/kthread.hpp`.

* A `std::thread` object is the id of the joinable thread of execution it
  represents, or nothing (`StdThread`).  Its member functions are modelled after
  the C++ standard library, failure branches included: `join` throws on a thread
  that is not joinable and when the calling thread is the thread itself, move
  assignment onto a joinable thread and the destruction of a joinable thread
  call `std::terminate`.
* Every call is run by a thread (`Caller`).  An exception leaves `kthread::join`
  as it is; it cannot leave the `noexcept` move assignment or the destructor:
  there `std::terminate` is called.
* A `kthread` object lives at an address; the program state (`World`) holds the
  live objects, the log of native joins performed so far (oldest first) and the
  id the host gives to the next spawned thread.
* Every member function of `kthread` is a function from the state before the
  call to either a fault or the state after it (and the returned value).
-/

namespace kt

/-- Identity of a thread of execution. -/
abbrev ThreadId := Nat

/-- Address of an object (`this`, `&rhs`). -/
abbrev Addr := Nat

/-- Thread that runs a call: `some t` for a thread started by a handle, `none` for a thread
that no handle ever owned (the main thread). -/
abbrev Caller := Option ThreadId

/-- Ways in which a call can fail to return normally. -/
inductive Fault where
  /-- Thrown by `std::thread::join` when the thread is not joinable (`invalid_argument`). -/
  | joinError
  /-- Thrown by `std::thread::join` when the calling thread is the thread to join
  (`resource_deadlock_would_occur`). -/
  | deadlock
  /-- Raised by `std::terminate`, called by `std::thread` itself: move assignment onto, or
  destruction of, a joinable `std::thread`. -/
  | terminate
  /-- Raised by `std::terminate`, called because an exception left a `noexcept` function. -/
  | terminate_noexcept
  /-- Thrown by the constructor of `std::thread` when the host refuses to start a thread. -/
  | spawnError
  /-- Use of an object outside its lifetime, or construction over a live object (ill-formed caller). -/
  | lifetime
deriving DecidableEq, Repr

deriving instance DecidableEq for Except

/-- What a fault becomes when it reaches the boundary of a `noexcept` function: an
exception calls `std::terminate`, everything else stays what it is. -/
def Fault.noexcept : Fault → Fault
  | .joinError => .terminate_noexcept
  | .deadlock => .terminate_noexcept
  | .spawnError => .terminate_noexcept
  | .terminate => .terminate
  | .terminate_noexcept => .terminate_noexcept
  | .lifetime => .lifetime

/-- Model of `std::thread`: the thread of execution it represents, if it is joinable. -/
structure StdThread where
  id : Option ThreadId
deriving DecidableEq, Repr

namespace StdThread

/-- Model of `std::thread::thread() noexcept` (also the temporary `{}`). -/
def empty : StdThread := ⟨none⟩

/-- Model of `std::thread::joinable`. -/
def joinable (t : StdThread) : Bool := t.id.isSome

/-- Model of `std::thread::join`, called by thread `caller`: throws when the object is not
joinable and when the caller is the thread itself; otherwise waits for the thread, appends it
to the log of joins and leaves the object not joinable. -/
def join (t : StdThread) (caller : Caller) (joins : List ThreadId) :
    Except Fault (StdThread × List ThreadId) :=
  match t.id with
  | none => .error .joinError
  | some i => if caller = some i then .error .deadlock else .ok (⟨none⟩, joins ++ [i])

/-- Model of `std::thread::operator=(thread&&)`: terminates when the target is joinable,
otherwise the target takes the state of the source and the source is left not joinable.
Returns the new target and the new source. -/
def moveAssign (lhs rhs : StdThread) : Except Fault (StdThread × StdThread) :=
  if lhs.joinable then .error .terminate else .ok (rhs, ⟨none⟩)

/-- Model of `std::thread::thread(thread&&)`: the new object and the moved-from source. -/
def moveCtor (rhs : StdThread) : StdThread × StdThread := (rhs, ⟨none⟩)

/-- Model of `std::thread::~thread`: terminates when the object is joinable. -/
def destroy (t : StdThread) : Except Fault Unit :=
  if t.joinable then .error .terminate else .ok ()

/-- Model of `std::swap(thread&, thread&)`: exchanges the two states. -/
def swap (a b : StdThread) : StdThread × StdThread := (b, a)

end StdThread

/-- The class `kthread`: its only data member is `std::thread m_thread`. -/
structure kthread where
  m_thread : StdThread
deriving DecidableEq, Repr

/-- Store of live `kthread` objects, keyed by address. -/
abbrev Heap := List (Addr × kthread)

namespace Heap

/-- Object living at address `a`, if any. -/
def get : Heap → Addr → Option kthread
  | [], _ => none
  | (b, v) :: r, a => if b = a then some v else get r a

/-- End of the lifetime of the object at `a`. -/
def erase : Heap → Addr → Heap
  | [], _ => []
  | (b, v) :: r, a => if b = a then erase r a else (b, v) :: erase r a

/-- Write `v` at address `a`. -/
def set (h : Heap) (a : Addr) (v : kthread) : Heap := (a, v) :: erase h a

end Heap

/-- Program state. -/
structure World where
  /-- Live `kthread` objects. -/
  objs : Heap
  /-- Threads on which a native join has been performed, oldest first. -/
  joins : List ThreadId
  /-- Id the host gives to the next thread it starts. -/
  next : ThreadId
deriving DecidableEq, Repr

namespace World

/-- State of a program that has created no handle yet. -/
def init : World := ⟨[], [], 0⟩

/-- Handle living at `a`, if any. -/
def get (w : World) (a : Addr) : Option kthread := w.objs.get a

/-- Thread owned by the handle at `a`: `none` when there is no handle at `a` or it is empty. -/
def owner (w : World) (a : Addr) : Option ThreadId :=
  match w.get a with
  | some h => h.m_thread.id
  | none => none

/-- The calling thread `c` is the thread owned by the handle at `a`. -/
def selfCall (w : World) (c : Caller) (a : Addr) : Bool :=
  match w.owner a with
  | some t => decide (c = some t)
  | none => false

end World

namespace kthread

/-- Source: `kthread() = default;` (line 27). Constructs an empty handle at `this`. -/
def ctor_default (this : Addr) (w : World) : Except Fault World :=
  match w.get this with
  | some _ => .error .lifetime
  | none => .ok { w with objs := w.objs.set this ⟨StdThread.empty⟩ }

/-- Source: `kthread(F&& func, Args&&... args) : m_thread(func, args...)` (lines 56-58).
The host either starts a fresh thread (`granted`) or the constructor of `std::thread` throws. -/
def ctor_spawn (this : Addr) (granted : Bool) (w : World) : Except Fault World :=
  match w.get this with
  | some _ => .error .lifetime
  | none =>
    if granted then
      .ok { w with objs := w.objs.set this ⟨⟨some w.next⟩⟩, next := w.next + 1 }
    else .error .spawnError

/-- Source: `kthread(kthread&&) = default;` (line 30): memberwise move of `m_thread`. -/
def ctor_move (this rhs : Addr) (w : World) : Except Fault World :=
  match w.get this, w.get rhs with
  | none, some r =>
    let p := StdThread.moveCtor r.m_thread
    .ok { w with objs := (w.objs.set rhs ⟨p.2⟩).set this ⟨p.1⟩ }
  | _, _ => .error .lifetime

/-- Source: `kthread::join` (lines 74-81), called by thread `caller`. The function is not
`noexcept`: an exception of the native join leaves it, before anything was written. -/
def join (caller : Caller) (this : Addr) (w : World) : Except Fault (Bool × World) :=
  match w.get this with
  | none => .error .lifetime
  | some h =>
    if h.m_thread.joinable then
      -- m_thread.join();
      match StdThread.join h.m_thread caller w.joins with
      | .error f => .error f
      | .ok (t1, joins1) =>
        -- m_thread = {};
        match StdThread.moveAssign t1 StdThread.empty with
        | .error f => .error f
        | .ok (t2, tmp) =>
          -- the temporary is destroyed at the end of the full expression
          match StdThread.destroy tmp with
          | .error f => .error f
          | .ok () => .ok (true, { w with objs := w.objs.set this ⟨t2⟩, joins := joins1 })
    else .ok (false, w)

/-- Source: `kthread::operator=(kthread&&) noexcept` (lines 59-65), called by thread
`caller`. An exception of `join()` cannot leave the function. -/
def operator_assign (caller : Caller) (this rhs : Addr) (w : World) : Except Fault World :=
  match w.get this, w.get rhs with
  | some _, some _ =>
    if rhs ≠ this then
      -- join();
      match join caller this w with
      | .error f => .error f.noexcept
      | .ok (_, w1) =>
        -- m_thread = std::move(rhs.m_thread);
        match w1.get this, w1.get rhs with
        | some l, some r =>
          match StdThread.moveAssign l.m_thread r.m_thread with
          | .error f => .error f
          | .ok (l1, r1) => .ok { w1 with objs := (w1.objs.set rhs ⟨r1⟩).set this ⟨l1⟩ }
        | _, _ => .error .lifetime
    else .ok w
  | _, _ => .error .lifetime

/-- Body of the destructor, source: `kthread::~kthread() { join(); }` (lines 66-68), called
by thread `caller`. A destructor is `noexcept`: an exception of `join()` cannot leave it. -/
def dtor_body (caller : Caller) (this : Addr) (w : World) : Except Fault World :=
  match join caller this w with
  | .error f => .error f.noexcept
  | .ok (_, w1) => .ok w1

/-- Release of the handle after the destructor body: the member `m_thread` is destroyed
and the lifetime of the object ends. -/
def release (this : Addr) (w : World) : Except Fault World :=
  match w.get this with
  | none => .error .lifetime
  | some h =>
    match StdThread.destroy h.m_thread with
    | .error f => .error f
    | .ok () => .ok { w with objs := w.objs.erase this }

/-- Destruction of a handle: the destructor body, then the release. -/
def destructor (caller : Caller) (this : Addr) (w : World) : Except Fault World :=
  match dtor_body caller this w with
  | .error f => .error f
  | .ok w1 => release this w1

/-- Source: `kthread::swap` (lines 69-73). -/
def swap (this rhs : Addr) (w : World) : Except Fault World :=
  match w.get this, w.get rhs with
  | some l, some r =>
    if rhs ≠ this then
      let p := StdThread.swap l.m_thread r.m_thread
      .ok { w with objs := (w.objs.set rhs ⟨p.2⟩).set this ⟨p.1⟩ }
    else .ok w
  | _, _ => .error .lifetime

end kthread

/-- One operation of a client program on its handles. -/
inductive Op where
  | ctor_default (this : Addr)
  | ctor_spawn (this : Addr) (granted : Bool)
  | ctor_move (this rhs : Addr)
  | assign (this rhs : Addr)
  | join (this : Addr)
  | swap (this rhs : Addr)
  | destroy (this : Addr)
deriving DecidableEq, Repr

/-- Effect on the state of one operation run by thread `c`. -/
def step (c : Caller) (o : Op) (w : World) : Except Fault World :=
  match o with
  | .ctor_default a => kthread.ctor_default a w
  | .ctor_spawn a g => kthread.ctor_spawn a g w
  | .ctor_move a b => kthread.ctor_move a b w
  | .assign a b => kthread.operator_assign c a b w
  | .join a =>
    match kthread.join c a w with
    | .error f => .error f
    | .ok (_, w1) => .ok w1
  | .swap a b => kthread.swap a b w
  | .destroy a => kthread.destructor c a w

/-- Effect of a sequence of operations, each with the thread that runs it, stopping at the
first fault. -/
def run : List (Caller × Op) → World → Except Fault World
  | [], w => .ok w
  | (c, o) :: os, w =>
    match step c o w with
    | .error f => .error f
    | .ok w1 => run os w1

/-- Exclusive ownership: no two distinct live handles are populated with the same thread. -/
def Exclusive (w : World) : Prop :=
  ∀ a b t, w.owner a = some t → w.owner b = some t → a = b

/-- Every thread owned by a live handle was started before: its id is below `next`. -/
def Started (w : World) : Prop :=
  ∀ a t, w.owner a = some t → t < w.next

/-- World with one populated handle at address 0 owning thread 0. -/
def world_one : World := ⟨[(0, ⟨⟨some 0⟩⟩)], [], 1⟩

/-- World with an empty handle at 0 and a populated handle at 1 (thread 0). -/
def world_empty_pop : World := ⟨[(1, ⟨⟨some 0⟩⟩), (0, ⟨⟨none⟩⟩)], [], 1⟩

/-- A client program: two spawned handles, a move construction, a swap, a move assignment,
a default construction, a join and a destruction, run by the main thread and by the two
spawned threads. -/
def ops_sample : List (Caller × Op) :=
  [(none, .ctor_spawn 0 true), (none, .ctor_spawn 1 true), (none, .ctor_move 2 0),
    (some 0, .swap 0 1), (some 1, .assign 1 2), (none, .ctor_default 3), (some 1, .join 1),
    (some 0, .destroy 2)]

/-- State reached by `ops_sample`: handle 0 owns thread 1, handles 1 and 3 are empty, thread 0
has been joined. -/
def world_sample : World :=
  ⟨[(1, ⟨⟨none⟩⟩), (3, ⟨⟨none⟩⟩), (0, ⟨⟨some 1⟩⟩)], [0], 2⟩


/-! ## The store -/

theorem Heap.get_erase (h : Heap) (a b : Addr) :
    (h.erase a).get b = if a = b then none else h.get b := by
  induction h with
  | nil => simp [Heap.erase, Heap.get]
  | cons p r ih =>
    obtain ⟨c, v⟩ := p
    by_cases hca : c = a
    · subst hca
      by_cases hcb : c = b
      · subst hcb
        simpa [Heap.erase] using ih
      · simp [Heap.erase, Heap.get, ih, hcb]
    · by_cases hab : a = b
      · subst hab
        simp [Heap.erase, Heap.get, hca, ih]
      · simp [Heap.erase, Heap.get, hca, ih, hab]

theorem Heap.get_set (h : Heap) (a b : Addr) (v : kthread) :
    (h.set a v).get b = if a = b then some v else h.get b := by
  by_cases hab : a = b
  · simp [Heap.set, Heap.get, hab]
  · simp [Heap.set, Heap.get, hab, Heap.get_erase]

theorem World.get_mk_set (w : World) (a b : Addr) (v : kthread) (js : List ThreadId)
    (n : ThreadId) :
    World.get ⟨w.objs.set a v, js, n⟩ b = if a = b then some v else w.get b := by
  simp [World.get, Heap.get_set]

theorem World.selfCall_of_get {w : World} {c : Caller} {h : Addr} {t : ThreadId}
    (hp : w.get h = some ⟨⟨some t⟩⟩) : w.selfCall c h = decide (c = some t) := by
  simp [World.selfCall, World.owner, hp]

theorem World.selfCall_of_empty {w : World} {c : Caller} {h : Addr}
    (hp : w.get h = some ⟨⟨none⟩⟩) : w.selfCall c h = false := by
  simp [World.selfCall, World.owner, hp]

/-! ## join -/

theorem join_of_populated (w : World) (c : Caller) (h : Addr) (t : ThreadId)
    (hp : w.get h = some ⟨⟨some t⟩⟩) (hc : c ≠ some t) :
    kthread.join c h w = .ok (true, ⟨w.objs.set h ⟨⟨none⟩⟩, w.joins ++ [t], w.next⟩) := by
  simp [kthread.join, hp, StdThread.joinable, StdThread.join, StdThread.moveAssign,
    StdThread.empty, StdThread.destroy, hc]

theorem join_of_self (w : World) (h : Addr) (t : ThreadId)
    (hp : w.get h = some ⟨⟨some t⟩⟩) :
    kthread.join (some t) h w = .error .deadlock := by
  simp [kthread.join, hp, StdThread.joinable, StdThread.join]

theorem join_of_empty (w : World) (c : Caller) (h : Addr) (hp : w.get h = some ⟨⟨none⟩⟩) :
    kthread.join c h w = .ok (false, w) := by
  simp [kthread.join, hp, StdThread.joinable]

theorem join_populated_effect (w : World) (c : Caller) (h : Addr) (t : ThreadId)
    (hp : w.get h = some ⟨⟨some t⟩⟩) (hc : c ≠ some t) :
    ∃ w1, kthread.join c h w = .ok (true, w1)
      ∧ w1.joins = w.joins ++ [t]
      ∧ w1.get h = some ⟨⟨none⟩⟩
      ∧ (∀ b, b ≠ h → w1.get b = w.get b)
      ∧ w1.next = w.next := by
  refine ⟨_, join_of_populated w c h t hp hc, rfl, ?_, ?_, rfl⟩
  · simp [World.get_mk_set]
  · intro b hb
    simp [World.get_mk_set, Ne.symm hb]

/-- C1, as stated, fails: when the call of `join` on the populated handle of `world_one` is
run by the thread that the handle owns, the native join throws; `join` does not return true
and no native join is performed. -/
theorem join_populated_counterexample :
    world_one.get 0 = some ⟨⟨some 0⟩⟩
      ∧ kthread.join (some 0) 0 world_one = .error .deadlock
      ∧ ¬ (∃ w1, kthread.join (some 0) 0 world_one = .ok (true, w1)) := by
  refine ⟨by decide, by decide, ?_⟩
  rintro ⟨w1, h1⟩
  have h2 : kthread.join (some 0) 0 world_one = .error .deadlock := by decide
  rw [h2] at h1
  exact Except.noConfusion h1

/-- C1, amended: joining a populated handle from any thread other than the thread it owns
performs the native join on the owned thread exactly once (the log of joins gains exactly that
thread), leaves the handle empty, touches no other handle and returns true; a second
consecutive join, from any thread, returns false and changes nothing at all. -/
theorem join_populated_then_again (w : World) (c : Caller) (h : Addr) (t : ThreadId)
    (hp : w.get h = some ⟨⟨some t⟩⟩) (hc : c ≠ some t) :
    ∃ w1, kthread.join c h w = .ok (true, w1)
      ∧ w1.joins = w.joins ++ [t]
      ∧ w1.get h = some ⟨⟨none⟩⟩
      ∧ (∀ b, b ≠ h → w1.get b = w.get b)
      ∧ (∀ c2, kthread.join c2 h w1 = .ok (false, w1)) := by
  refine ⟨_, join_of_populated w c h t hp hc, rfl, ?_, ?_, ?_⟩
  · simp [World.get_mk_set]
  · intro b hb
    simp [World.get_mk_set, Ne.symm hb]
  · intro c2
    apply join_of_empty
    simp [World.get_mk_set]

theorem join_populated_then_again_witness :
    world_one.get 0 = some ⟨⟨some 0⟩⟩ ∧ (none : Caller) ≠ some 0
      ∧ ∃ w1, kthread.join none 0 world_one = .ok (true, w1)
        ∧ w1.joins = world_one.joins ++ [0]
        ∧ w1.get 0 = some ⟨⟨none⟩⟩
        ∧ (∀ b, b ≠ 0 → w1.get b = world_one.get b)
        ∧ (∀ c2, kthread.join c2 0 w1 = .ok (false, w1)) :=
  ⟨by decide, by decide, join_populated_then_again world_one none 0 0 (by decide) (by decide)⟩

/-- C2: a default-constructed handle is empty, and joining it, from any thread, returns false,
performs no native join and leaves the whole state, the handle included, as it was. -/
theorem join_default_constructed (w : World) (c : Caller) (h : Addr) (hfree : w.get h = none) :
    ∃ w1, kthread.ctor_default h w = .ok w1
      ∧ w1.get h = some ⟨⟨none⟩⟩
      ∧ w1.joins = w.joins
      ∧ kthread.join c h w1 = .ok (false, w1) := by
  refine ⟨⟨w.objs.set h ⟨⟨none⟩⟩, w.joins, w.next⟩, ?_, ?_, rfl, ?_⟩
  · simp [kthread.ctor_default, hfree, StdThread.empty]
  · simp [World.get_mk_set]
  · apply join_of_empty
    simp [World.get_mk_set]

theorem join_default_constructed_witness :
    World.init.get 0 = none
      ∧ ∃ w1, kthread.ctor_default 0 World.init = .ok w1
        ∧ w1.get 0 = some ⟨⟨none⟩⟩
        ∧ w1.joins = World.init.joins
        ∧ kthread.join none 0 w1 = .ok (false, w1) :=
  ⟨by decide, join_default_constructed World.init none 0 (by decide)⟩

/-- Outcome of `join` on any live handle, run by a thread other than the one it owns: the
returned flag is whether the handle was populated, the log of joins gains the owned thread (if
any), the handle ends empty and no other handle is touched. -/
theorem join_of_live (w : World) (c : Caller) (h : Addr) (k : kthread)
    (hl : w.get h = some k) (hc : w.selfCall c h = false) :
    ∃ w1, kthread.join c h w = .ok (k.m_thread.joinable, w1)
      ∧ w1.joins = w.joins ++ k.m_thread.id.toList
      ∧ w1.get h = some ⟨⟨none⟩⟩
      ∧ (∀ b, b ≠ h → w1.get b = w.get b)
      ∧ w1.next = w.next := by
  obtain ⟨⟨i⟩⟩ := k
  cases i with
  | none =>
    refine ⟨w, ?_, ?_, hl, fun _ _ => rfl, rfl⟩
    · simpa [StdThread.joinable] using join_of_empty w c h hl
    · simp
  | some t =>
    have hct : c ≠ some t := by
      rw [World.selfCall_of_get hl] at hc
      simpa using hc
    refine ⟨⟨w.objs.set h ⟨⟨none⟩⟩, w.joins ++ [t], w.next⟩, ?_, ?_, ?_, ?_, rfl⟩
    · simpa [StdThread.joinable] using join_of_populated w c h t hl hct
    · simp
    · simp [World.get_mk_set]
    · intro b hb
      simp [World.get_mk_set, Ne.symm hb]

/-- Outcome of `join` on a handle run by the thread the handle owns. -/
theorem join_of_selfCall (w : World) (c : Caller) (h : Addr) (hc : w.selfCall c h = true) :
    kthread.join c h w = .error .deadlock := by
  unfold World.selfCall World.owner at hc
  cases hg : w.get h with
  | none => simp [hg] at hc
  | some k =>
    obtain ⟨⟨i⟩⟩ := k
    cases i with
    | none => simp [hg] at hc
    | some t =>
      simp [hg] at hc
      subst hc
      exact join_of_self w h t hg

/-! ## Destruction -/

theorem destructor_effect (w : World) (c : Caller) (h : Addr) (k : kthread)
    (hl : w.get h = some k) (hc : w.selfCall c h = false) :
    ∃ w1 w2, kthread.dtor_body c h w = .ok w1
      ∧ w1.get h = some ⟨⟨none⟩⟩
      ∧ kthread.release h w1 = .ok w2
      ∧ kthread.destructor c h w = .ok w2
      ∧ w2.get h = none
      ∧ w2.joins = w1.joins
      ∧ (∀ t, k.m_thread.id = some t → w1.joins = w.joins ++ [t])
      ∧ (k.m_thread.id = none → w1.joins = w.joins)
      ∧ (∀ b, b ≠ h → w2.get b = w.get b)
      ∧ w2.next = w.next := by
  obtain ⟨w1, hj, hjs, hg, hfr, hn⟩ := join_of_live w c h k hl hc
  have hb : kthread.dtor_body c h w = .ok w1 := by simp [kthread.dtor_body, hj]
  have hr : kthread.release h w1 = .ok ⟨w1.objs.erase h, w1.joins, w1.next⟩ := by
    simp [kthread.release, hg, StdThread.destroy, StdThread.joinable]
  refine ⟨w1, _, hb, hg, hr, ?_, ?_, rfl, ?_, ?_, ?_, hn⟩
  · simp [kthread.destructor, hb, hr]
  · simp [World.get, Heap.get_erase]
  · intro t ht
    simp [hjs, ht]
  · intro ht
    simp [hjs, ht]
  · intro b hbne
    have := hfr b hbne
    simpa [World.get, Heap.get_erase, Ne.symm hbne] using this

theorem destructor_of_selfCall (w : World) (c : Caller) (h : Addr)
    (hc : w.selfCall c h = true) :
    kthread.destructor c h w = .error .terminate_noexcept := by
  simp [kthread.destructor, kthread.dtor_body, join_of_selfCall w c h hc, Fault.noexcept]

/-- C3, as stated, fails: when the populated handle of `world_one` is destroyed by the thread
that it owns, the native join throws inside the destructor and `std::terminate` is called;
the destruction does not return with the thread joined. -/
theorem destructor_counterexample :
    world_one.get 0 = some ⟨⟨some 0⟩⟩
      ∧ kthread.destructor (some 0) 0 world_one = .error .terminate_noexcept
      ∧ ¬ (∃ w2, kthread.destructor (some 0) 0 world_one = .ok w2) := by
  refine ⟨by decide, by decide, ?_⟩
  rintro ⟨w2, h2⟩
  have h3 : kthread.destructor (some 0) 0 world_one = .error .terminate_noexcept := by decide
  rw [h3] at h2
  exact Except.noConfusion h2

/-- C3, amended: destroying a live handle from any thread other than the thread it owns runs
the implicit join first and only then releases the handle. The destructor body leaves the
handle empty, so the release of `m_thread` succeeds and the object is gone afterwards; if the
handle was populated with `t` the native join was performed on `t` (the log of joins gains
exactly `t`), if it was empty no native join was performed; no other handle is touched. -/
theorem destructor_joins_first (w : World) (c : Caller) (h : Addr) (k : kthread)
    (hl : w.get h = some k) (hc : w.selfCall c h = false) :
    ∃ w1 w2, kthread.dtor_body c h w = .ok w1
      ∧ w1.get h = some ⟨⟨none⟩⟩
      ∧ kthread.release h w1 = .ok w2
      ∧ kthread.destructor c h w = .ok w2
      ∧ w2.get h = none
      ∧ w2.joins = w1.joins
      ∧ (∀ t, k.m_thread.id = some t → w1.joins = w.joins ++ [t])
      ∧ (k.m_thread.id = none → w1.joins = w.joins)
      ∧ (∀ b, b ≠ h → w2.get b = w.get b) := by
  obtain ⟨w1, w2, h1, h2, h3, h4, h5, h6, h7, h8, h9, _⟩ := destructor_effect w c h k hl hc
  exact ⟨w1, w2, h1, h2, h3, h4, h5, h6, h7, h8, h9⟩

theorem destructor_joins_first_witness :
    world_one.get 0 = some ⟨⟨some 0⟩⟩ ∧ world_one.selfCall none 0 = false
      ∧ ∃ w1 w2, kthread.dtor_body none 0 world_one = .ok w1
        ∧ w1.get 0 = some ⟨⟨none⟩⟩
        ∧ kthread.release 0 w1 = .ok w2
        ∧ kthread.destructor none 0 world_one = .ok w2
        ∧ w2.get 0 = none
        ∧ w2.joins = w1.joins
        ∧ (∀ t, (some 0 : Option ThreadId) = some t → w1.joins = world_one.joins ++ [t])
        ∧ ((some 0 : Option ThreadId) = none → w1.joins = world_one.joins)
        ∧ (∀ b, b ≠ 0 → w2.get b = world_one.get b) :=
  ⟨by decide, by decide,
    destructor_joins_first world_one none 0 ⟨⟨some 0⟩⟩ (by decide) (by decide)⟩

/-! ## Move assignment -/

/-- Move assignment between two distinct live handles, run by a thread other than the one the
destination owns, in terms of the state `w1` reached by the call of `join` on the
destination. -/
theorem assign_of_distinct (w : World) (c : Caller) (h1 h2 : Addr) (k1 k2 : kthread)
    (hne : h1 ≠ h2) (g1 : w.get h1 = some k1) (g2 : w.get h2 = some k2)
    (hc : w.selfCall c h1 = false) :
    ∃ w1, kthread.join c h1 w = .ok (k1.m_thread.joinable, w1)
      ∧ w1.joins = w.joins ++ k1.m_thread.id.toList
      ∧ w1.get h1 = some ⟨⟨none⟩⟩
      ∧ kthread.operator_assign c h1 h2 w
          = .ok ⟨(w1.objs.set h2 ⟨⟨none⟩⟩).set h1 k2, w1.joins, w1.next⟩
      ∧ (∀ b, b ≠ h1 → w1.get b = w.get b)
      ∧ w1.next = w.next := by
  obtain ⟨w1, hj, hjs, hg, hfr, hn⟩ := join_of_live w c h1 k1 g1 hc
  refine ⟨w1, hj, hjs, hg, ?_, hfr, hn⟩
  have g2w : w1.get h2 = some k2 := by rw [hfr h2 (Ne.symm hne), g2]
  simp [kthread.operator_assign, g1, g2, Ne.symm hne, hj, hg, g2w, StdThread.moveAssign,
    StdThread.joinable]

/-- Move assignment between two distinct live handles run by the thread the destination
owns: the exception of the native join cannot leave the function. -/
theorem assign_of_selfCall (w : World) (c : Caller) (h1 h2 : Addr) (k1 k2 : kthread)
    (hne : h1 ≠ h2) (g1 : w.get h1 = some k1) (g2 : w.get h2 = some k2)
    (hc : w.selfCall c h1 = true) :
    kthread.operator_assign c h1 h2 w = .error .terminate_noexcept := by
  simp [kthread.operator_assign, g1, g2, Ne.symm hne, join_of_selfCall w c h1 hc,
    Fault.noexcept]

theorem swap_of_distinct (w : World) (h1 h2 : Addr) (k1 k2 : kthread) (hne : h1 ≠ h2)
    (g1 : w.get h1 = some k1) (g2 : w.get h2 = some k2) :
    kthread.swap h1 h2 w = .ok ⟨(w.objs.set h2 k1).set h1 k2, w.joins, w.next⟩ := by
  simp [kthread.swap, g1, g2, Ne.symm hne, StdThread.swap]

/-- C5, as stated, fails in its second half: after `h1.swap(h2)` in `world_empty_pop` the
handle `h1` owns thread 0, and `h1.join()` run by thread 0 itself throws instead of returning
true. -/
theorem swap_then_join_counterexample :
    world_empty_pop.get 0 = some ⟨⟨none⟩⟩ ∧ world_empty_pop.get 1 = some ⟨⟨some 0⟩⟩
      ∧ ∃ w1, kthread.swap 0 1 world_empty_pop = .ok w1
        ∧ w1.get 0 = some ⟨⟨some 0⟩⟩
        ∧ kthread.join (some 0) 0 w1 = .error .deadlock
        ∧ ¬ (∃ w2, kthread.join (some 0) 0 w1 = .ok (true, w2)) := by
  refine ⟨by decide, by decide, ⟨[(0, ⟨⟨some 0⟩⟩), (1, ⟨⟨none⟩⟩)], [], 1⟩, by decide, by decide,
    by decide, ?_⟩
  rintro ⟨w2, h2⟩
  have h3 : kthread.join (some 0) 0 ⟨[(0, ⟨⟨some 0⟩⟩), (1, ⟨⟨none⟩⟩)], [], 1⟩
      = .error .deadlock := by decide
  rw [h3] at h2
  exact Except.noConfusion h2

/-- C5, amended: for two distinct live handles, `h1.swap(h2)` exchanges their whole state,
performs no native join and touches no other handle; in particular, with `h1` empty and `h2`
populated with `t`, afterwards `h2.join()` returns false from any thread, and `h1.join()`,
called from any thread other than `t`, returns true having joined exactly `t`, after which
`h2.join()` still returns false. -/
theorem swap_exchanges (w : World) (h1 h2 : Addr) (k1 k2 : kthread) (hne : h1 ≠ h2)
    (g1 : w.get h1 = some k1) (g2 : w.get h2 = some k2) :
    ∃ w1, kthread.swap h1 h2 w = .ok w1
      ∧ w1.get h1 = some k2
      ∧ w1.get h2 = some k1
      ∧ w1.joins = w.joins
      ∧ (∀ b, b ≠ h1 → b ≠ h2 → w1.get b = w.get b)
      ∧ (∀ t, k1 = ⟨⟨none⟩⟩ → k2 = ⟨⟨some t⟩⟩ →
          (∀ c2, kthread.join c2 h2 w1 = .ok (false, w1))
          ∧ ∀ c, c ≠ some t → ∃ w2, kthread.join c h1 w1 = .ok (true, w2)
            ∧ w2.joins = w.joins ++ [t]
            ∧ ∀ c2, kthread.join c2 h2 w2 = .ok (false, w2)) := by
  have e1 : World.get ⟨(w.objs.set h2 k1).set h1 k2, w.joins, w.next⟩ h1 = some k2 := by
    simp [World.get, Heap.get_set]
  have e2 : World.get ⟨(w.objs.set h2 k1).set h1 k2, w.joins, w.next⟩ h2 = some k1 := by
    simp [World.get, Heap.get_set, hne]
  refine ⟨⟨(w.objs.set h2 k1).set h1 k2, w.joins, w.next⟩,
    swap_of_distinct w h1 h2 k1 k2 hne g1 g2, e1, e2, rfl, ?_, ?_⟩
  · intro b hb1 hb2
    simp [World.get, Heap.get_set, Ne.symm hb1, Ne.symm hb2]
  · intro t hk1 hk2
    subst hk1 hk2
    refine ⟨fun c2 => join_of_empty _ c2 _ e2, ?_⟩
    intro c hc
    obtain ⟨w2, hj, hjs, _, hfr, _⟩ := join_populated_effect _ c h1 t e1 hc
    refine ⟨w2, hj, hjs, fun c2 => join_of_empty _ c2 _ ?_⟩
    rw [hfr h2 (Ne.symm hne), e2]

theorem swap_exchanges_witness :
    (0 : Addr) ≠ 1 ∧ world_empty_pop.get 0 = some ⟨⟨none⟩⟩
      ∧ world_empty_pop.get 1 = some ⟨⟨some 0⟩⟩
      ∧ ∃ w1, kthread.swap 0 1 world_empty_pop = .ok w1
        ∧ w1.get 0 = some ⟨⟨some 0⟩⟩
        ∧ w1.get 1 = some ⟨⟨none⟩⟩
        ∧ w1.joins = world_empty_pop.joins
        ∧ (∀ b, b ≠ 0 → b ≠ 1 → w1.get b = world_empty_pop.get b)
        ∧ (∀ t, (⟨⟨none⟩⟩ : kthread) = ⟨⟨none⟩⟩ → (⟨⟨some 0⟩⟩ : kthread) = ⟨⟨some t⟩⟩ →
            (∀ c2, kthread.join c2 1 w1 = .ok (false, w1))
            ∧ ∀ c, c ≠ some t → ∃ w2, kthread.join c 0 w1 = .ok (true, w2)
              ∧ w2.joins = world_empty_pop.joins ++ [t]
              ∧ ∀ c2, kthread.join c2 1 w2 = .ok (false, w2)) :=
  ⟨by decide, by decide, by decide,
    swap_exchanges world_empty_pop 0 1 ⟨⟨none⟩⟩ ⟨⟨some 0⟩⟩ (by decide) (by decide) (by decide)⟩

/-! ## Self assignment and self swap -/

/-- C6: for a populated handle, self move assignment (run by any thread) and self swap both
return with the whole state unchanged: the handle still owns its original thread and no native
join was performed. -/
theorem self_assign_self_swap_noop (w : World) (c : Caller) (h : Addr) (t : ThreadId)
    (hp : w.get h = some ⟨⟨some t⟩⟩) :
    kthread.operator_assign c h h w = .ok w ∧ kthread.swap h h w = .ok w := by
  constructor
  · simp [kthread.operator_assign, hp]
  · simp [kthread.swap, hp]

theorem self_assign_self_swap_noop_witness :
    world_one.get 0 = some ⟨⟨some 0⟩⟩
      ∧ kthread.operator_assign (some 0) 0 0 world_one = .ok world_one
      ∧ kthread.swap 0 0 world_one = .ok world_one :=
  ⟨by decide, self_assign_self_swap_noop world_one (some 0) 0 0 (by decide)⟩

/-! ## When does move assignment join -/

/-- C9: move construction of a new handle `dst` from a live handle `src` gives `dst` exactly
the state `src` had, leaves `src` empty, performs no native join and touches no other handle.
The moved-from `src` can then, from any thread, be joined (returns false, nothing changes),
destroyed (no native join, the object is gone) or be the target of a move assignment from any
live handle `o` (no native join, `src` adopts the state of `o`). -/
theorem ctor_move_transfers (w : World) (dst src : Addr) (k : kthread)
    (hfree : w.get dst = none) (gs : w.get src = some k) :
    ∃ w1, kthread.ctor_move dst src w = .ok w1
      ∧ w1.get dst = some k
      ∧ w1.get src = some ⟨⟨none⟩⟩
      ∧ w1.joins = w.joins
      ∧ (∀ b, b ≠ dst → b ≠ src → w1.get b = w.get b)
      ∧ (∀ c, kthread.join c src w1 = .ok (false, w1))
      ∧ (∀ c, ∃ w2, kthread.destructor c src w1 = .ok w2 ∧ w2.joins = w.joins
          ∧ w2.get src = none)
      ∧ (∀ c o ko, w1.get o = some ko →
          ∃ w3, kthread.operator_assign c src o w1 = .ok w3 ∧ w3.joins = w.joins
            ∧ w3.get src = some ko) := by
  have hne : dst ≠ src := by
    rintro rfl
    rw [hfree] at gs
    exact Option.noConfusion gs
  have e1 : World.get ⟨(w.objs.set src ⟨⟨none⟩⟩).set dst k, w.joins, w.next⟩ dst = some k := by
    simp [World.get, Heap.get_set]
  have e2 : World.get ⟨(w.objs.set src ⟨⟨none⟩⟩).set dst k, w.joins, w.next⟩ src
      = some ⟨⟨none⟩⟩ := by
    simp [World.get, Heap.get_set, hne]
  refine ⟨⟨(w.objs.set src ⟨⟨none⟩⟩).set dst k, w.joins, w.next⟩, ?_, e1, e2, rfl, ?_,
    fun c => join_of_empty _ c _ e2, ?_, ?_⟩
  · simp [kthread.ctor_move, hfree, gs, StdThread.moveCtor]
  · intro b hb1 hb2
    simp [World.get, Heap.get_set, Ne.symm hb1, Ne.symm hb2]
  · intro c
    obtain ⟨w1, w2, _, _, _, hd, hg, hj2, _, hj1, _⟩ :=
      destructor_effect _ c src _ e2 (World.selfCall_of_empty e2)
    exact ⟨w2, hd, by rw [hj2, hj1 rfl], hg⟩
  · intro c o ko ho
    by_cases hso : src = o
    · subst hso
      refine ⟨⟨(w.objs.set src ⟨⟨none⟩⟩).set dst k, w.joins, w.next⟩, ?_, rfl, ho⟩
      simp [kthread.operator_assign, ho]
    · obtain ⟨w1, _, hjs, _, ha, _⟩ :=
        assign_of_distinct _ c src o _ ko hso e2 ho (World.selfCall_of_empty e2)
      refine ⟨_, ha, ?_, ?_⟩
      · simp [hjs]
      · simp [World.get, Heap.get_set]

theorem ctor_move_transfers_witness :
    world_one.get 1 = none ∧ world_one.get 0 = some ⟨⟨some 0⟩⟩
      ∧ ∃ w1, kthread.ctor_move 1 0 world_one = .ok w1
        ∧ w1.get 1 = some ⟨⟨some 0⟩⟩
        ∧ w1.get 0 = some ⟨⟨none⟩⟩
        ∧ w1.joins = world_one.joins
        ∧ (∀ b, b ≠ 1 → b ≠ 0 → w1.get b = world_one.get b)
        ∧ (∀ c, kthread.join c 0 w1 = .ok (false, w1))
        ∧ (∀ c, ∃ w2, kthread.destructor c 0 w1 = .ok w2 ∧ w2.joins = world_one.joins
            ∧ w2.get 0 = none)
        ∧ (∀ c o ko, w1.get o = some ko →
            ∃ w3, kthread.operator_assign c 0 o w1 = .ok w3 ∧ w3.joins = world_one.joins
              ∧ w3.get 0 = some ko) :=
  ⟨by decide, by decide, ctor_move_transfers world_one 1 0 ⟨⟨some 0⟩⟩ (by decide) (by decide)⟩

/-! ## Failure branches of std::thread -/

/-- The failure branches of the model of `std::thread` are live: the native join of a thread
that is not joinable throws, the native join of the calling thread throws, move assignment
onto a joinable thread terminates, and releasing a populated handle without the destructor
body terminates. -/
theorem native_failures_exist :
    StdThread.join ⟨none⟩ none [] = .error .joinError
      ∧ StdThread.join ⟨some 0⟩ (some 0) [] = .error .deadlock
      ∧ StdThread.moveAssign ⟨some 0⟩ ⟨none⟩ = .error .terminate
      ∧ kthread.release 0 world_one = .error .terminate := by
  decide

theorem World.owner_congr {w w1 : World} {c : Addr} (h : w1.get c = w.get c) :
    w1.owner c = w.owner c := by
  simp [World.owner, h]

theorem World.owner_of_get {w : World} {c : Addr} {k : kthread} (h : w.get c = some k) :
    w.owner c = k.m_thread.id := by
  simp [World.owner, h]

theorem World.owner_of_dead {w : World} {c : Addr} (h : w.get c = none) :
    w.owner c = none := by
  simp [World.owner, h]

/-- Ownership after an operation that rewrites at most the two addresses `a` and `b`: if what
they own afterwards (`x` and `y`) is owned by no third handle, was started, and is not the same
thread twice, exclusive ownership is kept. -/
theorem inv_update {w w1 : World} (a b : Addr) (x y : Option ThreadId)
    (hw : ∀ c, w1.owner c = if a = c then x else if b = c then y else w.owner c)
    (hx : ∀ t, x = some t → t < w1.next ∧ ∀ c, c ≠ a → c ≠ b → w.owner c ≠ some t)
    (hy : ∀ t, y = some t → t < w1.next ∧ ∀ c, c ≠ a → c ≠ b → w.owner c ≠ some t)
    (hxy : a ≠ b → ∀ t, x = some t → y ≠ some t)
    (hn : w.next ≤ w1.next)
    (he : Exclusive w) (hs : Started w) : Exclusive w1 ∧ Started w1 := by
  constructor
  · intro c d t hc hd
    rw [hw] at hc hd
    by_cases hac : a = c
    · by_cases had : a = d
      · rw [← hac, ← had]
      · rw [if_pos hac] at hc
        rw [if_neg had] at hd
        by_cases hbd : b = d
        · rw [if_pos hbd] at hd
          have hab : a ≠ b := fun e => had (e.trans hbd)
          exact absurd hd (hxy hab t hc)
        · rw [if_neg hbd] at hd
          exact absurd hd ((hx t hc).2 d (Ne.symm had) (Ne.symm hbd))
    · rw [if_neg hac] at hc
      by_cases hbc : b = c
      · rw [if_pos hbc] at hc
        by_cases had : a = d
        · rw [if_pos had] at hd
          have hab : a ≠ b := fun e => hac (e.trans hbc)
          exact absurd hc (hxy hab t hd)
        · rw [if_neg had] at hd
          by_cases hbd : b = d
          · rw [← hbc, ← hbd]
          · rw [if_neg hbd] at hd
            exact absurd hd ((hy t hc).2 d (Ne.symm had) (Ne.symm hbd))
      · rw [if_neg hbc] at hc
        by_cases had : a = d
        · rw [if_pos had] at hd
          exact absurd hc ((hx t hd).2 c (Ne.symm hac) (Ne.symm hbc))
        · rw [if_neg had] at hd
          by_cases hbd : b = d
          · rw [if_pos hbd] at hd
            exact absurd hc ((hy t hd).2 c (Ne.symm hac) (Ne.symm hbc))
          · rw [if_neg hbd] at hd
            exact he c d t hc hd
  · intro c t hc
    rw [hw] at hc
    by_cases hac : a = c
    · rw [if_pos hac] at hc
      exact (hx t hc).1
    · rw [if_neg hac] at hc
      by_cases hbc : b = c
      · rw [if_pos hbc] at hc
        exact (hy t hc).1
      · rw [if_neg hbc] at hc
        exact lt_of_lt_of_le (hs c t hc) hn

/-- Ownership after an operation that empties (or ends) the handle at `a` only. -/
theorem inv_clear {w w1 : World} (a : Addr)
    (ha : w1.owner a = none) (hfr : ∀ c, c ≠ a → w1.owner c = w.owner c)
    (hn : w.next ≤ w1.next)
    (he : Exclusive w) (hs : Started w) : Exclusive w1 ∧ Started w1 := by
  refine inv_update a a none none ?_ ?_ ?_ ?_ hn he hs
  · intro c
    by_cases hac : a = c
    · subst hac
      simp [ha]
    · simp [hac, hfr c (Ne.symm hac)]
  · intro t ht
    exact Option.noConfusion ht
  · intro t ht
    exact Option.noConfusion ht
  · intro hab
    exact absurd rfl hab

/-- Ownership after a transfer from `b` to a distinct `a`: `a` ends with what `b` owned, `b`
ends empty, nothing else changes. -/
theorem inv_transfer {w w1 : World} (a b : Addr)
    (ha : w1.owner a = w.owner b) (hb : w1.owner b = none)
    (hfr : ∀ c, c ≠ a → c ≠ b → w1.owner c = w.owner c)
    (hn : w.next = w1.next)
    (he : Exclusive w) (hs : Started w) : Exclusive w1 ∧ Started w1 := by
  refine inv_update a b (w.owner b) none ?_ ?_ ?_ ?_ (le_of_eq hn) he hs
  · intro c
    by_cases hac : a = c
    · subst hac
      simp [ha]
    · by_cases hbc : b = c
      · subst hbc
        simp [hac, hb]
      · simp [hac, hbc, hfr c (Ne.symm hac) (Ne.symm hbc)]
  · intro t ht
    refine ⟨hn ▸ hs b t ht, ?_⟩
    intro c _ hcb hc
    exact hcb (he c b t hc ht)
  · intro t ht
    exact Option.noConfusion ht
  · intro _ t _ h
    exact Option.noConfusion h

theorem inv_init : Exclusive World.init ∧ Started World.init := by
  constructor
  · intro a b t ha
    simp [World.owner, World.get, World.init, Heap.get] at ha
  · intro a t ha
    simp [World.owner, World.get, World.init, Heap.get] at ha

/-- Every operation that returns keeps exclusive ownership (together with the fact that every
owned thread was started). -/
theorem step_preserves (c : Caller) (o : Op) (w w1 : World) (h : step c o w = .ok w1)
    (he : Exclusive w) (hs : Started w) : Exclusive w1 ∧ Started w1 := by
  cases o with
  | ctor_default a =>
    cases ha : w.get a with
    | some k => simp [step, kthread.ctor_default, ha] at h
    | none =>
      simp only [step, kthread.ctor_default, ha, Except.ok.injEq] at h
      subst h
      refine @inv_clear w _ a ?_ ?_ (le_refl _) he hs
      · simp [World.owner, World.get, Heap.get_set, StdThread.empty]
      · intro c hc
        simp [World.owner, World.get, Heap.get_set, Ne.symm hc]
  | ctor_spawn a g =>
    cases ha : w.get a with
    | some k => simp [step, kthread.ctor_spawn, ha] at h
    | none =>
      cases g with
      | false => simp [step, kthread.ctor_spawn, ha] at h
      | true =>
        simp only [step, kthread.ctor_spawn, ha, if_true, Except.ok.injEq] at h
        subst h
        have fresh : ∀ t, some w.next = some t →
            t < w.next + 1 ∧ ∀ c, c ≠ a → c ≠ a → w.owner c ≠ some t := by
          intro t ht
          injection ht with ht
          subst ht
          refine ⟨Nat.lt_succ_self _, ?_⟩
          intro c _ _ hc
          exact lt_irrefl _ (hs c _ hc)
        refine @inv_update w _ a a (some w.next) (some w.next) ?_ fresh fresh ?_
          (Nat.le_succ _) he hs
        · intro c
          by_cases hac : a = c
          · simp [World.owner, World.get, Heap.get_set, hac]
          · simp [World.owner, World.get, Heap.get_set, hac]
        · intro hab
          exact absurd rfl hab
  | ctor_move a b =>
    cases ha : w.get a with
    | some k => simp [step, kthread.ctor_move, ha] at h
    | none =>
      cases hb : w.get b with
      | none => simp [step, kthread.ctor_move, ha, hb] at h
      | some r =>
        have hab : a ≠ b := by
          rintro rfl
          rw [ha] at hb
          exact Option.noConfusion hb
        simp only [step, kthread.ctor_move, ha, hb, StdThread.moveCtor, Except.ok.injEq] at h
        subst h
        refine @inv_transfer w _ a b ?_ ?_ ?_ rfl he hs
        · rw [World.owner_of_get hb]
          simp [World.owner, World.get, Heap.get_set]
        · simp [World.owner, World.get, Heap.get_set, hab]
        · intro c hca hcb
          simp [World.owner, World.get, Heap.get_set, Ne.symm hca, Ne.symm hcb]
  | assign a b =>
    cases ha : w.get a with
    | none => simp [step, kthread.operator_assign, ha] at h
    | some ka =>
      cases hb : w.get b with
      | none => simp [step, kthread.operator_assign, ha, hb] at h
      | some kb =>
        by_cases hab : a = b
        · subst hab
          simp [step, kthread.operator_assign, ha] at h
          subst h
          exact ⟨he, hs⟩
        · cases hsc : w.selfCall c a with
          | true =>
            simp [step, assign_of_selfCall w c a b ka kb hab ha hb hsc] at h
          | false =>
            obtain ⟨w2, _, _, _, hasg, hfr, hn⟩ :=
              assign_of_distinct w c a b ka kb hab ha hb hsc
            simp only [step, hasg, Except.ok.injEq] at h
            subst h
            refine @inv_transfer w _ a b ?_ ?_ ?_ hn.symm he hs
            · rw [World.owner_of_get hb]
              simp [World.owner, World.get, Heap.get_set]
            · simp [World.owner, World.get, Heap.get_set, hab]
            · intro d hda hdb
              rw [← World.owner_congr (hfr d hda)]
              simp [World.owner, World.get, Heap.get_set, Ne.symm hda, Ne.symm hdb]
  | join a =>
    cases ha : w.get a with
    | none => simp [step, kthread.join, ha] at h
    | some ka =>
      cases hsc : w.selfCall c a with
      | true => simp [step, join_of_selfCall w c a hsc] at h
      | false =>
        obtain ⟨w2, hj, _, hg, hfr, hn⟩ := join_of_live w c a ka ha hsc
        simp only [step, hj, Except.ok.injEq] at h
        subst h
        refine @inv_clear w _ a ?_ ?_ (le_of_eq hn.symm) he hs
        · simp [World.owner_of_get hg]
        · intro d hd
          exact World.owner_congr (hfr d hd)
  | swap a b =>
    cases ha : w.get a with
    | none => simp [step, kthread.swap, ha] at h
    | some ka =>
      cases hb : w.get b with
      | none => simp [step, kthread.swap, ha, hb] at h
      | some kb =>
        by_cases hab : a = b
        · subst hab
          simp [step, kthread.swap, ha] at h
          subst h
          exact ⟨he, hs⟩
        · simp only [step, kthread.swap, ha, hb, ne_eq, Ne.symm hab, not_false_eq_true,
            if_true, StdThread.swap, Except.ok.injEq] at h
          subst h
          refine @inv_update w _ a b (w.owner b) (w.owner a) ?_ ?_ ?_ ?_ (le_refl _) he hs
          · intro c
            rw [World.owner_of_get hb, World.owner_of_get ha]
            by_cases hac : a = c
            · simp [World.owner, World.get, Heap.get_set, hac]
            · by_cases hbc : b = c
              · simp [World.owner, World.get, Heap.get_set, hac, hbc]
              · simp [World.owner, World.get, Heap.get_set, hac, hbc]
          · intro t ht
            refine ⟨hs b t ht, ?_⟩
            intro c _ hcb hc
            exact hcb (he c b t hc ht)
          · intro t ht
            refine ⟨hs a t ht, ?_⟩
            intro c hca _ hc
            exact hca (he c a t hc ht)
          · intro _ t hx hy
            exact hab (he a b t hy hx)
  | destroy a =>
    cases ha : w.get a with
    | none =>
      simp [step, kthread.destructor, kthread.dtor_body, kthread.join, ha, Fault.noexcept] at h
    | some ka =>
      cases hsc : w.selfCall c a with
      | true => simp [step, destructor_of_selfCall w c a hsc] at h
      | false =>
        obtain ⟨w2, w3, _, _, _, hd, hg, _, _, _, hfr, hn⟩ :=
          destructor_effect w c a ka ha hsc
        simp only [step, hd, Except.ok.injEq] at h
        subst h
        refine @inv_clear w _ a ?_ ?_ (le_of_eq hn.symm) he hs
        · exact World.owner_of_dead hg
        · intro d hd2
          exact World.owner_congr (hfr d hd2)

theorem run_preserves (ops : List (Caller × Op)) :
    ∀ w w1, run ops w = .ok w1 → Exclusive w → Started w → Exclusive w1 ∧ Started w1 := by
  induction ops with
  | nil =>
    intro w w1 h he hs
    simp only [run, Except.ok.injEq] at h
    subst h
    exact ⟨he, hs⟩
  | cons p os ih =>
    obtain ⟨c, o⟩ := p
    intro w w1 h he hs
    cases hst : step c o w with
    | error f => simp [run, hst] at h
    | ok w2 =>
      simp only [run, hst] at h
      obtain ⟨he2, hs2⟩ := step_preserves c o w w2 hst he hs
      exact ih w2 w1 h he2 hs2

/-- C8: exclusive ownership is an invariant. Starting from a program that has no handle yet,
after any sequence of default constructions, populated constructions (each spawning a fresh
thread), move constructions, move assignments, joins, swaps and destructions, each run by any
thread, that returns, no two distinct handles are populated with the same thread: any two
handles that own the same thread are the same handle. -/
theorem exclusive_ownership (ops : List (Caller × Op)) (w : World)
    (h : run ops World.init = .ok w) :
    ∀ a b t, w.owner a = some t → w.owner b = some t → a = b :=
  (run_preserves ops World.init w h inv_init.1 inv_init.2).1

theorem exclusive_ownership_witness :
    run ops_sample World.init = .ok world_sample
      ∧ ∀ a b t, world_sample.owner a = some t → world_sample.owner b = some t → a = b :=
  ⟨by decide, exclusive_ownership ops_sample world_sample (by decide)⟩

end kt
